import Mathlib

/-!
Verification development for the `fifo-transaction-processor` package.

The embedding follows the TypeScript/JavaScript sources: the `Queue` class
(`enqueue`, `dequeue`, `removeTimeoutTransactions`, `flush`, `remove`) and the
`FIFOTransactionProcessor` class (`submit`, `transact`, `abort`, `abortAll`,
`end`, the `Open`/`Stopped`/`Busy` flags, the polling sweep, and
`executeTransactionIfNecessary`).  All mutation of queue/processor state in the
source happens on one logical thread; asynchronous settlement of the currently
executing transaction and firings of the polling timer are modelled as explicit
operations (`Op.settle`, `Op.sweep`) interleaved with caller operations.
EventEmitter emissions, including the processor's synchronous listener
reactions to queue events, are recorded in a notification trace in the exact
synchronous order the source produces them.
-/

namespace FifoProc

/-- ITransactionQueueItem: `{Id, EnqueueTime, Transaction, CompletionCallback}`.
The transaction payload is opaque to the dispatcher, so it is represented by a
numeric tag; `hasCallback` records whether a `CompletionCallback` was installed
(`transact` installs one, `submit` passes `null`). -/
structure Item where
  Id : Nat
  EnqueueTime : Int
  Transaction : Nat
  hasCallback : Bool
deriving DecidableEq

/-- Error kinds produced by the processor, per the `{error, error_description}`
objects in the source: `forbidden`, `timeout`, `aborted`, or an error value
raised by the payload's own `execute()`. -/
inductive Err where
  | forbidden
  | timeout
  | aborted
  | payload (code : Nat)
deriving DecidableEq

/-- Notifications (EventEmitter emissions) in the order the source emits them.
Constructors starting with `q` are the `Queue` class events
(`enqueue`, `change`, `transactions-timeout`, `transactions-removed`);
the rest are `FIFOTransactionProcessor` events, plus `callbackInvoked`, which
records the one-shot invocation of an item's `CompletionCallback`. -/
inductive Notif where
  | qEnqueue (id : Nat) (enqueueTime : Int)
  | qChange
  | qTimeout (items : List Item)
  | qRemoved (items : List Item)
  | submitted (id : Nat) (enqueueTime : Int)
  | change
  | polling
  | executingTransaction (trans : Nat) (id : Nat)
  | transactionSuccess (trans : Nat) (result : Nat) (id : Nat)
  | transactionError (trans : Nat) (e : Err) (id : Option Nat)
  | callbackInvoked (id : Nat) (e : Option Err) (result : Option Nat)
deriving DecidableEq

/-- Settlement of the in-flight `Transaction.execute()` promise: the `.then`
branch carries a result, the `.catch` branch carries a payload error code. -/
inductive Outcome where
  | ok (result : Nat)
  | err (code : Nat)
deriving DecidableEq

/-- Immediate outcome of a `submit`/`transact` call: `submit` resolves with the
generated `TransactionId` right away, `transact` leaves the promise pending
until the completion callback fires, and both reject when intake is closed. -/
inductive CallResult where
  | resolvedId (id : Nat)
  | pending
  | rejected (e : Err)
deriving DecidableEq

/-- FIFOTransactionProcessor state: `_queue._items`, `_executingTransaction`,
`_queueOpen`, `_stopped`, whether a sweep timer is pending (`_timer != null`),
and the two recognized options. -/
structure PState where
  queue : List Item
  executingTransaction : Option Item
  queueOpen : Bool
  stopped : Bool
  timerOn : Bool
  transTimeoutMS : Int
  transTimeoutPollingIntervalMS : Int
deriving DecidableEq

/-- Busy getter: `return (this._executingTransaction != null)`. -/
def PState.Busy (s : PState) : Bool := s.executingTransaction.isSome

/-- State right after the constructor: empty queue, not executing, open, not
stopped, sweep timer armed, options as supplied. -/
def initState (pollMS timeoutMS : Int) : PState :=
  { queue := []
    executingTransaction := none
    queueOpen := true
    stopped := false
    timerOn := true
    transTimeoutMS := timeoutMS
    transTimeoutPollingIntervalMS := pollMS }

/-- Timeout test used by `removeTimeoutTransactions`:
`now - item.EnqueueTime > TransTimeoutMS`. -/
def isTimedOut (now maxAge : Int) (it : Item) : Bool :=
  decide (now - it.EnqueueTime > maxAge)

/-- Index-collection loop of `removeTimeoutTransactions`:
`for (let i = items.length - 1; i >= 0; i--) if (timedOut(items[i])) indices.push(i)`.
`collectIdx items p k` performs the iterations for `i = k-1` down to `0`, so
the collected indices are in strictly descending order. -/
def collectIdx (items : List Item) (p : Item → Bool) : Nat → List Nat
  | 0 => []
  | i + 1 =>
      (match items[i]? with
        | some it => if p it then [i] else []
        | none => []) ++ collectIdx items p i

/-- Removal loop of `removeTimeoutTransactions`: for each collected index (in
the descending order they were pushed), read `items[index]`, append it to
`timeoutItems`, and `splice(index, 1)`.  Returns (remaining items, removed
items in removal order). -/
def spliceAtIndices : List Nat → List Item → List Item × List Item
  | [], items => (items, [])
  | i :: rest, items =>
      let removedHere := match items[i]? with
        | some it => [it]
        | none => []
      let res := spliceAtIndices rest (items.eraseIdx i)
      (res.1, removedHere ++ res.2)

/-- Queue.removeTimeoutTransactions(TransTimeoutMS), pure part: computes the
surviving `_items` and the `timeoutItems` batch (the queue's event emissions
and the processor's listener reactions are added by `sweepStep`). -/
def removeTimeoutTransactions (now maxAge : Int) (items : List Item) :
    List Item × List Item :=
  if 0 < items.length then
    if 0 < (collectIdx items (isTimedOut now maxAge) items.length).length then
      spliceAtIndices (collectIdx items (isTimedOut now maxAge) items.length) items
    else (items, [])
  else (items, [])

/-- Queue.remove(TransactionId), pure part: linear scan in queue order for the
first item whose `Id` matches; returns the matched item and the spliced list,
or `none` when there is no match. -/
def removeById (id : Nat) : List Item → Option (Item × List Item)
  | [] => none
  | it :: rest =>
      if it.Id = id then some (it, rest)
      else
        match removeById id rest with
        | some p => some (p.1, it :: p.2)
        | none => none

/-- handleTransactionError for a queue item: emit `transaction-error`
(transaction, err, id), then invoke the item's `CompletionCallback(err, null)`
when one was installed. -/
def errNotifs (it : Item) (e : Err) : List Notif :=
  [.transactionError it.Transaction e (some it.Id)] ++
    (if it.hasCallback then [.callbackInvoked it.Id (some e) none] else [])

/-- handleTransactionSuccess: emit `transaction-success`
(transaction, result, id), then invoke `CompletionCallback(null, result)` when
one was installed. -/
def succNotifs (it : Item) (result : Nat) : List Notif :=
  [.transactionSuccess it.Transaction result it.Id] ++
    (if it.hasCallback then [.callbackInvoked it.Id none (some result)] else [])

/-- Settlement notifications of the in-flight item: the `.then` branch calls
handleTransactionSuccess, the `.catch` branch calls handleTransactionError
with the payload's error. -/
def settleNotifs (it : Item) : Outcome → List Notif
  | .ok r => succNotifs it r
  | .err c => errNotifs it (.payload c)

/-- executeTransactionIfNecessary: when `!Busy && !Stopped` and the queue is
non-empty, dequeue the head (queue emits `change`, processor listener re-emits
`change`), store it in the executing slot via setExecutingTransaction (emits
`change`), and emit `executing-transaction`.  Otherwise nothing happens. -/
def executeTransactionIfNecessary (s : PState) : PState × List Notif :=
  if s.Busy || s.stopped then (s, [])
  else
    match s.queue with
    | [] => (s, [])
    | item :: rest =>
        ({ s with queue := rest, executingTransaction := some item },
         [.qChange, .change, .change,
          .executingTransaction item.Transaction item.Id])

/-- Queue.enqueue in its processor context: push the stamped item at the tail;
the queue's `enqueue` event synchronously runs the processor listener (emit
`submitted`, then executeTransactionIfNecessary), after which the queue emits
`change` and the listener re-emits `change`. -/
def enqueueStep (id trans : Nat) (hasCb : Bool) (now : Int) (s : PState) :
    PState × List Notif :=
  let item : Item := ⟨id, now, trans, hasCb⟩
  let s1 := { s with queue := s.queue ++ [item] }
  let res := executeTransactionIfNecessary s1
  (res.1, [.qEnqueue id now, .submitted id now] ++ res.2 ++ [.qChange, .change])

/-- submit(Transaction): when `Open`, generate an id (supplied here by the
environment), enqueue with a `null` callback and resolve with the id; when
closed, publish the `forbidden` error through handleTransactionError (null
callback, null id) and reject with the same error. -/
def submitStep (trans id : Nat) (now : Int) (s : PState) :
    PState × List Notif × CallResult :=
  if s.queueOpen then
    let res := enqueueStep id trans false now s
    (res.1, res.2, .resolvedId id)
  else
    (s, [.transactionError trans .forbidden none], .rejected .forbidden)

/-- transact(Transaction): like `submit` but installs a completion callback
that settles the caller's promise; the returned promise stays pending until
that callback fires.  Closed-intake behaviour is identical to `submit`. -/
def transactStep (trans id : Nat) (now : Int) (s : PState) :
    PState × List Notif × CallResult :=
  if s.queueOpen then
    let res := enqueueStep id trans true now s
    (res.1, res.2, .pending)
  else
    (s, [.transactionError trans .forbidden none], .rejected .forbidden)

/-- Settlement of the in-flight `execute()`: handleTransactionSuccess/Error for
the executing item, then setExecutingTransaction(null) (emits `change` and,
having become not busy, re-enters executeTransactionIfNecessary).  When no
transaction is executing there is no pending promise, so nothing happens. -/
def settleStep (o : Outcome) (s : PState) : PState × List Notif :=
  match s.executingTransaction with
  | none => (s, [])
  | some it =>
      let s1 := { s with executingTransaction := none }
      let res := executeTransactionIfNecessary s1
      (res.1, settleNotifs it o ++ [.change] ++ res.2)

/-- Processor-level notifications produced when `removeTimeoutTransactions`
evicts a non-empty batch: the queue emits `transactions-timeout` with the whole
batch, the listener synchronously runs handleTransactionError for each item in
batch order, then the queue emits `change` and the listener re-emits `change`.
No batch, no emission. -/
def queueTimeoutNotifs (removed : List Item) : List Notif :=
  if removed.isEmpty then []
  else
    [.qTimeout removed] ++
      (removed.flatMap fun it => errNotifs it .timeout) ++ [.qChange, .change]

/-- PollingTimeoutFunction: when a sweep timer is pending it fires, emits
`polling-transactions`, runs `removeTimeoutTransactions(TransTimeoutMS)`, and
reschedules itself (the timer stays armed).  A cleared timer never fires. -/
def sweepStep (now : Int) (s : PState) : PState × List Notif :=
  if s.timerOn then
    let res := removeTimeoutTransactions now s.transTimeoutMS s.queue
    ({ s with queue := res.1 }, [.polling] ++ queueTimeoutNotifs res.2)
  else (s, [])

/-- abort(TransactionId), delegating to Queue.remove: on a match the item is
spliced out, the queue emits `transactions-removed [item]` (listener:
handleTransactionError with the `aborted` error) and `change` (listener:
`change`), and the call returns `true`; otherwise `false` with no effect. -/
def abortStep (id : Nat) (s : PState) : PState × List Notif × Bool :=
  match removeById id s.queue with
  | some p =>
      ({ s with queue := p.2 },
       [.qRemoved [p.1]] ++ errNotifs p.1 .aborted ++ [.qChange, .change],
       true)
  | none => (s, [], false)

/-- abortAll, delegating to Queue.flush: a non-empty queue is emptied, the
queue emits `transactions-removed` with all items in queue order (listener:
handleTransactionError with `aborted` for each, in order) and `change`
(listener: `change`); an empty queue is a silent no-op. -/
def flushStep (s : PState) : PState × List Notif :=
  if s.queue.isEmpty then (s, [])
  else
    ({ s with queue := [] },
     [.qRemoved s.queue] ++
       (s.queue.flatMap fun it => errNotifs it .aborted) ++ [.qChange, .change])

/-- Stopped setter: on an actual change, store the flag and emit `change`;
when the new value is `false` (becoming not stopped), immediately re-enter
executeTransactionIfNecessary. -/
def setStoppedStep (v : Bool) (s : PState) : PState × List Notif :=
  if s.stopped = v then (s, [])
  else
    let s1 := { s with stopped := v }
    if v then (s1, [.change])
    else
      let res := executeTransactionIfNecessary s1
      (res.1, [.change] ++ res.2)

/-- Open setter: on an actual change, store the flag and emit `change`;
nothing else is touched. -/
def setOpenStep (v : Bool) (s : PState) : PState × List Notif :=
  if s.queueOpen = v then (s, [])
  else ({ s with queueOpen := v }, [.change])

/-- end(): `Open = false` (through the setter), `abortAll()`, then clear the
sweep timer when one is pending. -/
def endStep (s : PState) : PState × List Notif :=
  let r1 := setOpenStep false s
  let r2 := flushStep r1.1
  let s3 := if r2.1.timerOn then { r2.1 with timerOn := false } else r2.1
  (s3, r1.2 ++ r2.2)

/-- Atomic operations of the single-threaded execution model: caller-invoked
API calls, settlement of the in-flight execution, and timer firings.  The
`id` of a submission is the uuid the source generates, supplied here by the
environment; `now` is the clock value read inside the operation. -/
inductive Op where
  | submit (trans id : Nat) (now : Int)
  | transact (trans id : Nat) (now : Int)
  | settle (o : Outcome)
  | sweep (now : Int)
  | abort (id : Nat)
  | abortAll
  | setStopped (v : Bool)
  | setOpen (v : Bool)
  | endProc
deriving DecidableEq

/-- One atomic operation applied to the processor state, returning the new
state and the notifications emitted during the operation. -/
def step : Op → PState → PState × List Notif
  | .submit t i n, s => ((submitStep t i n s).1, (submitStep t i n s).2.1)
  | .transact t i n, s => ((transactStep t i n s).1, (transactStep t i n s).2.1)
  | .settle o, s => settleStep o s
  | .sweep n, s => sweepStep n s
  | .abort i, s => ((abortStep i s).1, (abortStep i s).2.1)
  | .abortAll, s => flushStep s
  | .setStopped v, s => setStoppedStep v s
  | .setOpen v, s => setOpenStep v s
  | .endProc, s => endStep s

/-- A whole interleaving: apply the operations in order, concatenating the
notification traces. -/
def run : List Op → PState → PState × List Notif
  | [], s => (s, [])
  | op :: rest, s =>
      let r1 := step op s
      let r2 := run rest r1.1
      (r2.1, r1.2 ++ r2.2)

/-! Characterization of the backwards-scan-and-splice eviction loop. -/

theorem collectIdx_nil (p : Item → Bool) : ∀ k, collectIdx [] p k = []
  | 0 => rfl
  | k + 1 => by simp [collectIdx, collectIdx_nil p k]

theorem collectIdx_cons (a : Item) (t : List Item) (p : Item → Bool) :
    ∀ k, collectIdx (a :: t) p (k + 1) =
      (collectIdx t p k).map (· + 1) ++ (if p a then [0] else [])
  | 0 => by simp [collectIdx]
  | k + 1 => by
      rw [show collectIdx (a :: t) p (k + 1 + 1) =
        (match (a :: t)[k + 1]? with
          | some it => if p it then [k + 1] else []
          | none => []) ++ collectIdx (a :: t) p (k + 1) from rfl]
      rw [collectIdx_cons a t p k]
      rw [show collectIdx t p (k + 1) =
        (match t[k]? with
          | some it => if p it then [k] else []
          | none => []) ++ collectIdx t p k from rfl]
      simp only [List.getElem?_cons_succ, List.map_append]
      cases h : t[k]? with
      | none => simp
      | some it => cases hp : p it <;> simp [hp]

theorem spliceAtIndices_append (xs ys : List Nat) (items : List Item) :
    spliceAtIndices (xs ++ ys) items =
      ((spliceAtIndices ys (spliceAtIndices xs items).1).1,
       (spliceAtIndices xs items).2 ++
         (spliceAtIndices ys (spliceAtIndices xs items).1).2) := by
  induction xs generalizing items with
  | nil => simp [spliceAtIndices]
  | cons i rest ih => simp [spliceAtIndices, ih]

theorem spliceAtIndices_map_succ (idxs : List Nat) (a : Item) (t : List Item) :
    spliceAtIndices (idxs.map (· + 1)) (a :: t) =
      (a :: (spliceAtIndices idxs t).1, (spliceAtIndices idxs t).2) := by
  induction idxs generalizing t with
  | nil => simp [spliceAtIndices]
  | cons i rest ih =>
      simp only [List.map_cons, spliceAtIndices, List.getElem?_cons_succ,
        List.eraseIdx_cons_succ, ih]

theorem splice_collect (p : Item → Bool) :
    ∀ items : List Item,
      spliceAtIndices (collectIdx items p items.length) items =
        (items.filter (fun it => !(p it)), (items.filter p).reverse)
  | [] => by simp [collectIdx, spliceAtIndices]
  | a :: t => by
      rw [show (a :: t).length = t.length + 1 from rfl, collectIdx_cons,
        spliceAtIndices_append, spliceAtIndices_map_succ, splice_collect p t]
      cases hp : p a with
      | false =>
          simp [spliceAtIndices, List.filter_cons, hp]
      | true =>
          simp [spliceAtIndices, List.filter_cons, hp, List.eraseIdx_cons_zero]

theorem collectIdx_eq_nil_iff (p : Item → Bool) :
    ∀ items : List Item,
      (collectIdx items p items.length = [] ↔ items.filter p = [])
  | [] => by simp [collectIdx]
  | a :: t => by
      rw [show (a :: t).length = t.length + 1 from rfl, collectIdx_cons]
      cases hp : p a with
      | false => simp [List.filter_cons, hp, collectIdx_eq_nil_iff p t]
      | true => simp [List.filter_cons, hp]

/-- Net effect of `removeTimeoutTransactions`: the survivors are exactly the
not-timed-out items in their original order, and the removed batch is exactly
the timed-out items in reverse queue order (the backwards scan collects the
highest index first). -/
theorem removeTimeoutTransactions_eq (now maxAge : Int) (items : List Item) :
    removeTimeoutTransactions now maxAge items =
      (items.filter (fun it => !(isTimedOut now maxAge it)),
       (items.filter (isTimedOut now maxAge)).reverse) := by
  by_cases hidx : collectIdx items (isTimedOut now maxAge) items.length = []
  · have hfilter := (collectIdx_eq_nil_iff (isTimedOut now maxAge) items).1 hidx
    have hall : ∀ it ∈ items, ¬(isTimedOut now maxAge it = true) :=
      List.filter_eq_nil_iff.1 hfilter
    have hself : items.filter (fun it => !(isTimedOut now maxAge it)) = items := by
      rw [List.filter_eq_self]
      intro it hit
      simp [hall it hit]
    simp [removeTimeoutTransactions, hidx, hfilter, hself]
  · have hpos : 0 < (collectIdx items (isTimedOut now maxAge) items.length).length :=
      List.length_pos.2 hidx
    have hlen0 : 0 < items.length := by
      cases items with
      | nil => rw [collectIdx_nil] at hidx; exact absurd rfl hidx
      | cons a t => simp
    rw [removeTimeoutTransactions, if_pos hlen0, if_pos hpos]
    exact splice_collect (isTimedOut now maxAge) items

/-! Characterization of Queue.remove (the abort path). -/

theorem removeById_of_decomp (id : Nat) (pre : List Item) (it : Item)
    (post : List Item) (hid : it.Id = id) (hpre : ∀ x ∈ pre, x.Id ≠ id) :
    removeById id (pre ++ it :: post) = some (it, pre ++ post) := by
  induction pre with
  | nil => simp [removeById, hid]
  | cons a rest ih =>
      have ha : a.Id ≠ id := hpre a (by simp)
      have ih' := ih fun x hx => hpre x (by simp [hx])
      simp [removeById, ha, ih']

theorem removeById_eq_none (id : Nat) (l : List Item)
    (h : ∀ x ∈ l, x.Id ≠ id) : removeById id l = none := by
  induction l with
  | nil => rfl
  | cons a rest ih =>
      have ha : a.Id ≠ id := h a (by simp)
      have ih' := ih fun x hx => h x (by simp [hx])
      simp [removeById, ha, ih']

/-! Trace observables for the serialization invariant.  `serialOK b trace`
scans the trace keeping a flag that is set by an `executing-transaction`
notification and cleared by a `transaction-success`/`transaction-error`
notification; it demands that no `executing-transaction` fires while the flag
is still set, i.e. each one is matched by a success/error notification before
the next one fires. -/

def isExecStart : Notif → Bool
  | .executingTransaction _ _ => true
  | _ => false

def isSettledNotif : Notif → Bool
  | .transactionSuccess _ _ _ => true
  | .transactionError _ _ _ => true
  | _ => false

def serialStep (b : Bool) (n : Notif) : Bool :=
  if isExecStart n then true else if isSettledNotif n then false else b

def serialFlag (b : Bool) : List Notif → Bool
  | [] => b
  | n :: rest => serialFlag (serialStep b n) rest

def serialOK (b : Bool) : List Notif → Bool
  | [] => true
  | n :: rest => (!(isExecStart n) || !b) && serialOK (serialStep b n) rest

theorem serialFlag_append (b : Bool) (t u : List Notif) :
    serialFlag b (t ++ u) = serialFlag (serialFlag b t) u := by
  induction t generalizing b with
  | nil => rfl
  | cons n rest ih => simp [serialFlag, ih]

theorem serialOK_append (b : Bool) (t u : List Notif) :
    serialOK b (t ++ u) = (serialOK b t && serialOK (serialFlag b t) u) := by
  induction t generalizing b with
  | nil => simp [serialOK, serialFlag]
  | cons n rest ih => simp [serialOK, serialFlag, ih, Bool.and_assoc]

theorem serialOK_of_noStart (b : Bool) (l : List Notif)
    (h : ∀ n ∈ l, isExecStart n = false) : serialOK b l = true := by
  induction l generalizing b with
  | nil => rfl
  | cons n rest ih =>
      have hn := h n (by simp)
      have ih' := ih (serialStep b n) fun m hm => h m (by simp [hm])
      simp [serialOK, hn, ih']

theorem noStart_errNotifs (it : Item) (e : Err) :
    ∀ n ∈ errNotifs it e, isExecStart n = false := by
  cases h : it.hasCallback <;> simp [errNotifs, h, isExecStart]

theorem noStart_succNotifs (it : Item) (r : Nat) :
    ∀ n ∈ succNotifs it r, isExecStart n = false := by
  cases h : it.hasCallback <;> simp [succNotifs, h, isExecStart]

theorem noStart_settleNotifs (it : Item) (o : Outcome) :
    ∀ n ∈ settleNotifs it o, isExecStart n = false := by
  cases o with
  | ok r => exact noStart_succNotifs it r
  | err c => exact noStart_errNotifs it (.payload c)

theorem noStart_flatMapErr (l : List Item) (e : Err) :
    ∀ n ∈ l.flatMap (fun it => errNotifs it e), isExecStart n = false := by
  intro n hn
  rcases List.mem_flatMap.1 hn with ⟨it, _, hmem⟩
  exact noStart_errNotifs it e n hmem

theorem serialFlag_errNotifs (b : Bool) (it : Item) (e : Err) :
    serialFlag b (errNotifs it e) = false := by
  cases h : it.hasCallback <;>
    simp [errNotifs, h, serialFlag, serialStep, isExecStart, isSettledNotif]

theorem serialFlag_succNotifs (b : Bool) (it : Item) (r : Nat) :
    serialFlag b (succNotifs it r) = false := by
  cases h : it.hasCallback <;>
    simp [succNotifs, h, serialFlag, serialStep, isExecStart, isSettledNotif]

theorem serialFlag_settleNotifs (b : Bool) (it : Item) (o : Outcome) :
    serialFlag b (settleNotifs it o) = false := by
  cases o with
  | ok r => exact serialFlag_succNotifs b it r
  | err c => exact serialFlag_errNotifs b it (.payload c)

theorem serialFlag_flatMapErr (l : List Item) (e : Err) (h : l ≠ []) :
    ∀ b, serialFlag b (l.flatMap fun it => errNotifs it e) = false := by
  induction l with
  | nil => cases h rfl
  | cons it rest ih =>
      intro b
      rw [List.flatMap_cons, serialFlag_append, serialFlag_errNotifs]
      cases rest with
      | nil => rfl
      | cons y ys => exact ih (by simp) false

/-- Invariant tying the serialization flag to the executing slot: whenever no
transaction is executing, the last `executing-transaction` notification has
already been matched. -/
def noOpenExec (s : PState) (b : Bool) : Prop :=
  s.executingTransaction = none → b = false

theorem noOpenExec_false (s : PState) : noOpenExec s false := fun _ => rfl

theorem execIfNec_eq_of_busy (s : PState) (h : s.Busy = true) :
    executeTransactionIfNecessary s = (s, []) := by
  simp [executeTransactionIfNecessary, h]

theorem execIfNec_eq_of_stopped (s : PState) (h : s.stopped = true) :
    executeTransactionIfNecessary s = (s, []) := by
  simp [executeTransactionIfNecessary, h]

theorem execIfNec_cases (s : PState) :
    executeTransactionIfNecessary s = (s, []) ∨
    ∃ it rest, s.executingTransaction = none ∧ s.stopped = false ∧
      s.queue = it :: rest ∧
      executeTransactionIfNecessary s =
        ({ s with queue := rest, executingTransaction := some it },
         [.qChange, .change, .change,
          .executingTransaction it.Transaction it.Id]) := by
  cases hb : s.Busy with
  | true => exact Or.inl (execIfNec_eq_of_busy s hb)
  | false =>
      cases hs : s.stopped with
      | true => exact Or.inl (execIfNec_eq_of_stopped s hs)
      | false =>
          cases hq : s.queue with
          | nil => exact Or.inl (by simp [executeTransactionIfNecessary, hb, hs, hq])
          | cons it rest =>
              right
              have hE : s.executingTransaction = none := by
                cases hE : s.executingTransaction with
                | none => rfl
                | some x => rw [PState.Busy, hE] at hb; simp at hb
              exact ⟨it, rest, hE, rfl, rfl,
                by simp [executeTransactionIfNecessary, hb, hs, hq]⟩

theorem execIfNec_serial (s : PState) (b : Bool) (h : noOpenExec s b) :
    serialOK b (executeTransactionIfNecessary s).2 = true ∧
    noOpenExec (executeTransactionIfNecessary s).1
      (serialFlag b (executeTransactionIfNecessary s).2) := by
  rcases execIfNec_cases s with heq | ⟨it, rest, hE, _, _, heq⟩
  · rw [heq]; exact ⟨rfl, h⟩
  · rw [heq]
    have hb : b = false := h hE
    subst hb
    refine ⟨by simp [serialOK, serialStep, isExecStart, isSettledNotif], ?_⟩
    intro hnone
    simp at hnone

theorem noStart_queueTimeoutNotifs (l : List Item) :
    ∀ n ∈ queueTimeoutNotifs l, isExecStart n = false := by
  intro n hn
  rw [queueTimeoutNotifs] at hn
  by_cases hl : l.isEmpty
  · simp [hl] at hn
  · simp only [hl, if_false, List.mem_append, List.mem_singleton,
      List.mem_cons, Bool.false_eq_true, List.not_mem_nil, or_false] at hn
    rcases hn with (h1 | h2) | h3 | h4
    · simp [h1, isExecStart]
    · exact noStart_flatMapErr l .timeout n h2
    · simp [h3, isExecStart]
    · simp [h4, isExecStart]

theorem serialFlag_queueTimeoutNotifs_cons (b : Bool) (r : Item)
    (rs : List Item) :
    serialFlag b (queueTimeoutNotifs (r :: rs)) = false := by
  rw [queueTimeoutNotifs]
  simp only [List.isEmpty_cons, Bool.false_eq_true, if_false]
  rw [serialFlag_append, serialFlag_append]
  rw [serialFlag_flatMapErr (r :: rs) .timeout (by simp)]
  simp [serialFlag, serialStep, isExecStart, isSettledNotif]

theorem settle_serial (o : Outcome) (s : PState) (b : Bool)
    (h : noOpenExec s b) :
    serialOK b (settleStep o s).2 = true ∧
    noOpenExec (settleStep o s).1 (serialFlag b (settleStep o s).2) := by
  cases hE : s.executingTransaction with
  | none => simp only [settleStep, hE]; exact ⟨rfl, h⟩
  | some it =>
      have hrec := execIfNec_serial { s with executingTransaction := none }
        false (noOpenExec_false _)
      simp only [settleStep, hE]
      have hAC : serialFlag b (settleNotifs it o ++ [Notif.change]) = false := by
        rw [serialFlag_append, serialFlag_settleNotifs]
        simp [serialFlag, serialStep, isExecStart, isSettledNotif]
      have hOKA : serialOK b (settleNotifs it o ++ [Notif.change]) = true := by
        apply serialOK_of_noStart
        intro n hn
        rcases List.mem_append.1 hn with h1 | h2
        · exact noStart_settleNotifs it o n h1
        · simp only [List.mem_singleton] at h2; simp [h2, isExecStart]
      constructor
      · rw [serialOK_append, hAC, hOKA]
        simp [hrec.1]
      · rw [serialFlag_append, hAC]
        exact hrec.2

theorem enqueue_serial (id trans : Nat) (cb : Bool) (now : Int) (s : PState)
    (b : Bool) (h : noOpenExec s b) :
    serialOK b (enqueueStep id trans cb now s).2 = true ∧
    noOpenExec (enqueueStep id trans cb now s).1
      (serialFlag b (enqueueStep id trans cb now s).2) := by
  have hrec := execIfNec_serial
    { s with queue := s.queue ++ [⟨id, now, trans, cb⟩] } b h
  simp only [enqueueStep]
  constructor
  · rw [serialOK_append, serialOK_append]
    have hA : serialFlag b [Notif.qEnqueue id now, Notif.submitted id now]
        = b := by
      simp [serialFlag, serialStep, isExecStart, isSettledNotif]
    rw [hA]
    have hB : ∀ c : Bool, serialOK c [Notif.qChange, Notif.change] = true := by
      intro c
      simp [serialOK, serialStep, isExecStart, isSettledNotif]
    simp [serialOK, serialStep, isExecStart, isSettledNotif, hrec.1, hB]
  · rw [serialFlag_append, serialFlag_append]
    have hA : serialFlag b [Notif.qEnqueue id now, Notif.submitted id now]
        = b := by
      simp [serialFlag, serialStep, isExecStart, isSettledNotif]
    rw [hA]
    have hB : ∀ c : Bool, serialFlag c [Notif.qChange, Notif.change] = c := by
      intro c
      simp [serialFlag, serialStep, isExecStart, isSettledNotif]
    rw [hB]
    exact hrec.2

theorem sweepStep_eq_on (now : Int) (s : PState) (ht : s.timerOn = true) :
    sweepStep now s =
      ({ s with queue := (removeTimeoutTransactions now s.transTimeoutMS s.queue).1 },
       [.polling] ++
         queueTimeoutNotifs (removeTimeoutTransactions now s.transTimeoutMS s.queue).2) := by
  simp [sweepStep, ht]

theorem sweep_serial (now : Int) (s : PState) (b : Bool)
    (h : noOpenExec s b) :
    serialOK b (sweepStep now s).2 = true ∧
    noOpenExec (sweepStep now s).1 (serialFlag b (sweepStep now s).2) := by
  cases ht : s.timerOn with
  | false => simp only [sweepStep, ht, Bool.false_eq_true, if_false]; exact ⟨rfl, h⟩
  | true =>
      rw [sweepStep_eq_on now s ht]
      constructor
      · apply serialOK_of_noStart
        intro n hn
        rcases List.mem_append.1 hn with h1 | h2
        · simp only [List.mem_singleton] at h1; simp [h1, isExecStart]
        · exact noStart_queueTimeoutNotifs _ n h2
      · cases hrem : (removeTimeoutTransactions now s.transTimeoutMS s.queue).2 with
        | nil =>
            simpa [queueTimeoutNotifs, serialFlag, serialStep, isExecStart,
              isSettledNotif] using h
        | cons r rs =>
            rw [serialFlag_append]
            rw [show serialFlag b [Notif.polling] = b from by
              simp [serialFlag, serialStep, isExecStart, isSettledNotif]]
            rw [serialFlag_queueTimeoutNotifs_cons]
            exact noOpenExec_false _

theorem abort_serial (id : Nat) (s : PState) (b : Bool)
    (h : noOpenExec s b) :
    serialOK b (abortStep id s).2.1 = true ∧
    noOpenExec (abortStep id s).1 (serialFlag b (abortStep id s).2.1) := by
  cases hr : removeById id s.queue with
  | none => simp only [abortStep, hr]; exact ⟨rfl, h⟩
  | some p =>
      simp only [abortStep, hr]
      constructor
      · apply serialOK_of_noStart
        intro n hn
        simp only [List.mem_append, List.mem_singleton, List.mem_cons,
          List.not_mem_nil, or_false] at hn
        rcases hn with (h1 | h2) | h3 | h4
        · simp [h1, isExecStart]
        · exact noStart_errNotifs p.1 .aborted n h2
        · simp [h3, isExecStart]
        · simp [h4, isExecStart]
      · rw [serialFlag_append, serialFlag_append]
        rw [show serialFlag b [Notif.qRemoved [p.1]] = b from by
          simp [serialFlag, serialStep, isExecStart, isSettledNotif]]
        rw [serialFlag_errNotifs]
        rw [show serialFlag false [Notif.qChange, Notif.change] = false from by
          simp [serialFlag, serialStep, isExecStart, isSettledNotif]]
        exact noOpenExec_false _

theorem flush_serial (s : PState) (b : Bool) (h : noOpenExec s b) :
    serialOK b (flushStep s).2 = true ∧
    noOpenExec (flushStep s).1 (serialFlag b (flushStep s).2) := by
  cases hq : s.queue with
  | nil => simp only [flushStep, hq, List.isEmpty_nil, if_true]; exact ⟨rfl, h⟩
  | cons q qs =>
      simp only [flushStep, hq, List.isEmpty_cons, Bool.false_eq_true, if_false]
      constructor
      · apply serialOK_of_noStart
        intro n hn
        simp only [List.mem_append, List.mem_singleton, List.mem_cons,
          List.not_mem_nil, or_false] at hn
        rcases hn with (h1 | h2) | h3 | h4
        · simp [h1, isExecStart]
        · exact noStart_flatMapErr (q :: qs) .aborted n h2
        · simp [h3, isExecStart]
        · simp [h4, isExecStart]
      · rw [serialFlag_append, serialFlag_append]
        rw [serialFlag_flatMapErr (q :: qs) .aborted (by simp)]
        rw [show serialFlag false [Notif.qChange, Notif.change] = false from by
          simp [serialFlag, serialStep, isExecStart, isSettledNotif]]
        exact noOpenExec_false _

theorem setStopped_serial (v : Bool) (s : PState) (b : Bool)
    (h : noOpenExec s b) :
    serialOK b (setStoppedStep v s).2 = true ∧
    noOpenExec (setStoppedStep v s).1 (serialFlag b (setStoppedStep v s).2) := by
  by_cases hsv : s.stopped = v
  · simp only [setStoppedStep, if_pos hsv]; exact ⟨rfl, h⟩
  · cases v with
    | true =>
        simp only [setStoppedStep, if_neg hsv, if_true]
        refine ⟨by simp [serialOK, serialStep, isExecStart, isSettledNotif], ?_⟩
        simpa [serialFlag, serialStep, isExecStart, isSettledNotif] using h
    | false =>
        have hrec := execIfNec_serial { s with stopped := false } b h
        simp only [setStoppedStep, if_neg hsv, Bool.false_eq_true, if_false]
        constructor
        · rw [serialOK_append]
          rw [show serialFlag b [Notif.change] = b from by
            simp [serialFlag, serialStep, isExecStart, isSettledNotif]]
          simp [serialOK, serialStep, isExecStart, isSettledNotif, hrec.1]
        · rw [serialFlag_append]
          rw [show serialFlag b [Notif.change] = b from by
            simp [serialFlag, serialStep, isExecStart, isSettledNotif]]
          exact hrec.2

theorem setOpen_serial (v : Bool) (s : PState) (b : Bool)
    (h : noOpenExec s b) :
    serialOK b (setOpenStep v s).2 = true ∧
    noOpenExec (setOpenStep v s).1 (serialFlag b (setOpenStep v s).2) := by
  by_cases hsv : s.queueOpen = v
  · simp only [setOpenStep, if_pos hsv]; exact ⟨rfl, h⟩
  · simp only [setOpenStep, if_neg hsv]
    refine ⟨by simp [serialOK, serialStep, isExecStart, isSettledNotif], ?_⟩
    simpa [serialFlag, serialStep, isExecStart, isSettledNotif] using h

theorem end_serial (s : PState) (b : Bool) (h : noOpenExec s b) :
    serialOK b (endStep s).2 = true ∧
    noOpenExec (endStep s).1 (serialFlag b (endStep s).2) := by
  have hopen := setOpen_serial false s b h
  have hA : serialFlag b (setOpenStep false s).2 = b := by
    by_cases ho : s.queueOpen = false
    · simp only [setOpenStep, if_pos ho]; rfl
    · simp only [setOpenStep, if_neg ho]
      simp [serialFlag, serialStep, isExecStart, isSettledNotif]
  have h1 : noOpenExec (setOpenStep false s).1 b := by
    have := hopen.2
    rwa [hA] at this
  have hflush := flush_serial (setOpenStep false s).1 b h1
  simp only [endStep]
  constructor
  · rw [serialOK_append, hA]
    simp [hopen.1, hflush.1]
  · rw [serialFlag_append, hA]
    by_cases ht : (flushStep (setOpenStep false s).1).1.timerOn
    · simp only [ht, if_true]
      exact hflush.2
    · simp only [ht, if_false]
      exact hflush.2

theorem step_serial (op : Op) (s : PState) (b : Bool) (h : noOpenExec s b) :
    serialOK b (step op s).2 = true ∧
    noOpenExec (step op s).1 (serialFlag b (step op s).2) := by
  cases op with
  | submit t i n =>
      by_cases ho : s.queueOpen
      · simp only [step, submitStep, if_pos ho]
        exact enqueue_serial i t false n s b h
      · simp only [step, submitStep, if_neg ho]
        refine ⟨by simp [serialOK, serialStep, isExecStart, isSettledNotif], ?_⟩
        rw [show serialFlag b [Notif.transactionError t .forbidden none] = false
          from by simp [serialFlag, serialStep, isExecStart, isSettledNotif]]
        exact noOpenExec_false _
  | transact t i n =>
      by_cases ho : s.queueOpen
      · simp only [step, transactStep, if_pos ho]
        exact enqueue_serial i t true n s b h
      · simp only [step, transactStep, if_neg ho]
        refine ⟨by simp [serialOK, serialStep, isExecStart, isSettledNotif], ?_⟩
        rw [show serialFlag b [Notif.transactionError t .forbidden none] = false
          from by simp [serialFlag, serialStep, isExecStart, isSettledNotif]]
        exact noOpenExec_false _
  | settle o => exact settle_serial o s b h
  | sweep n => exact sweep_serial n s b h
  | abort i => exact abort_serial i s b h
  | abortAll => exact flush_serial s b h
  | setStopped v => exact setStopped_serial v s b h
  | setOpen v => exact setOpen_serial v s b h
  | endProc => exact end_serial s b h

theorem run_serial (ops : List Op) (s : PState) (b : Bool)
    (h : noOpenExec s b) :
    serialOK b (run ops s).2 = true ∧
    noOpenExec (run ops s).1 (serialFlag b (run ops s).2) := by
  induction ops generalizing s b with
  | nil => exact ⟨rfl, h⟩
  | cons op rest ih =>
      have h1 := step_serial op s b h
      have h2 := ih (step op s).1 (serialFlag b (step op s).2) h1.2
      simp only [run]
      constructor
      · rw [serialOK_append]
        simp [h1.1, h2.1]
      · rw [serialFlag_append]
        exact h2.2

/-! Trace observables for the FIFO invariant: the (transaction, id) pairs
announced by `executing-transaction` notifications, the pairs still queued,
and the pairs submitted by the operations of an interleaving. -/

def startedPairs (l : List Notif) : List (Nat × Nat) :=
  l.filterMap fun n =>
    match n with
    | .executingTransaction t i => some (t, i)
    | _ => none

def queuePairs (s : PState) : List (Nat × Nat) :=
  s.queue.map fun it => (it.Transaction, it.Id)

def submittedPairs (ops : List Op) : List (Nat × Nat) :=
  ops.filterMap fun op =>
    match op with
    | .submit t i _ => some (t, i)
    | .transact t i _ => some (t, i)
    | _ => none

/-- Interleavings consisting purely of submissions and settlements: no aborts,
no eviction sweeps, no flushes, no flag changes, no shutdown. -/
def submitSettleOnly (ops : List Op) : Bool :=
  ops.all fun op =>
    match op with
    | .submit _ _ _ => true
    | .transact _ _ _ => true
    | .settle _ => true
    | _ => false

theorem startedPairs_append (t u : List Notif) :
    startedPairs (t ++ u) = startedPairs t ++ startedPairs u :=
  List.filterMap_append t u _

theorem startedPairs_settleNotifs (it : Item) (o : Outcome) :
    startedPairs (settleNotifs it o) = [] := by
  cases o with
  | ok r => cases h : it.hasCallback <;> simp [settleNotifs, succNotifs, h, startedPairs]
  | err c => cases h : it.hasCallback <;> simp [settleNotifs, errNotifs, h, startedPairs]

theorem execIfNec_pairs (s : PState) :
    startedPairs (executeTransactionIfNecessary s).2 ++
        queuePairs (executeTransactionIfNecessary s).1 = queuePairs s ∧
    (executeTransactionIfNecessary s).1.queueOpen = s.queueOpen ∧
    (executeTransactionIfNecessary s).1.stopped = s.stopped := by
  rcases execIfNec_cases s with heq | ⟨it, rest, _, _, hq, heq⟩ <;> rw [heq]
  · simp [startedPairs]
  · simp [startedPairs, queuePairs, hq]

theorem fifo_enqueue (id trans : Nat) (cb : Bool) (now : Int) (s : PState) :
    startedPairs (enqueueStep id trans cb now s).2 ++
        queuePairs (enqueueStep id trans cb now s).1 =
      queuePairs s ++ [(trans, id)] ∧
    (enqueueStep id trans cb now s).1.queueOpen = s.queueOpen := by
  have hx := execIfNec_pairs { s with queue := s.queue ++ [⟨id, now, trans, cb⟩] }
  simp only [enqueueStep]
  constructor
  · rw [startedPairs_append, startedPairs_append]
    have h1 : startedPairs [Notif.qEnqueue id now, Notif.submitted id now] = [] := by
      simp [startedPairs]
    have h2 : startedPairs [Notif.qChange, Notif.change] = [] := by
      simp [startedPairs]
    rw [h1, h2]
    simp only [List.nil_append, List.append_nil]
    rw [hx.1]
    simp [queuePairs]
  · exact hx.2.1

theorem fifo_settle (o : Outcome) (s : PState) :
    startedPairs (settleStep o s).2 ++ queuePairs (settleStep o s).1 =
      queuePairs s ∧
    (settleStep o s).1.queueOpen = s.queueOpen := by
  cases hE : s.executingTransaction with
  | none => simp only [settleStep, hE]; exact ⟨by simp [startedPairs], by trivial⟩
  | some it =>
      have hx := execIfNec_pairs { s with executingTransaction := none }
      simp only [settleStep, hE]
      constructor
      · rw [startedPairs_append, startedPairs_append, startedPairs_settleNotifs]
        have h2 : startedPairs [Notif.change] = [] := by simp [startedPairs]
        rw [h2]
        simp only [List.nil_append, List.append_nil]
        exact hx.1
      · exact hx.2.1

theorem fifo_run (ops : List Op) (s : PState) (hO : s.queueOpen = true)
    (hops : submitSettleOnly ops = true) :
    startedPairs (run ops s).2 ++ queuePairs (run ops s).1 =
      queuePairs s ++ submittedPairs ops := by
  induction ops generalizing s with
  | nil => simp [run, submittedPairs, startedPairs]
  | cons op rest ih =>
      have hoprest : submitSettleOnly rest = true := by
        have := hops
        simp only [submitSettleOnly, List.all_cons, Bool.and_eq_true] at this
        exact this.2
      have hstep :
          startedPairs (step op s).2 ++ queuePairs (step op s).1 =
            queuePairs s ++ submittedPairs [op] ∧
          (step op s).1.queueOpen = true := by
        cases op with
        | submit t i n =>
            have := fifo_enqueue i t false n s
            simp only [step, submitStep, if_pos hO]
            refine ⟨?_, by rw [this.2]; exact hO⟩
            rw [this.1]
            simp [submittedPairs]
        | transact t i n =>
            have := fifo_enqueue i t true n s
            simp only [step, transactStep, if_pos hO]
            refine ⟨?_, by rw [this.2]; exact hO⟩
            rw [this.1]
            simp [submittedPairs]
        | settle o =>
            have := fifo_settle o s
            simp only [step]
            refine ⟨?_, by rw [this.2]; exact hO⟩
            rw [this.1]
            simp [submittedPairs]
        | sweep n => simp [submitSettleOnly] at hops
        | abort i => simp [submitSettleOnly] at hops
        | abortAll => simp [submitSettleOnly] at hops
        | setStopped v => simp [submitSettleOnly] at hops
        | setOpen v => simp [submitSettleOnly] at hops
        | endProc => simp [submitSettleOnly] at hops
      have hrest := ih (step op s).1 hstep.2 hoprest
      simp only [run]
      rw [startedPairs_append, List.append_assoc, hrest,
        ← List.append_assoc, hstep.1]
      have : submittedPairs (op :: rest) = submittedPairs [op] ++ submittedPairs rest := by
        cases op <;> simp [submittedPairs]
      rw [this, List.append_assoc]

/-! Machinery for the Stopped pause/resume property. -/

/-- Interleavings that never perform the stopped-to-running transition. -/
def noResume (ops : List Op) : Bool :=
  ops.all fun op => decide (op ≠ Op.setStopped false)

theorem countStart_zero (l : List Notif)
    (h : ∀ n ∈ l, isExecStart n = false) : l.countP isExecStart = 0 :=
  List.countP_eq_zero.2 fun n hn => by simp [h n hn]

theorem stopped_step_noStart (op : Op) (s : PState) (hs : s.stopped = true)
    (hop : op ≠ Op.setStopped false) :
    (∀ n ∈ (step op s).2, isExecStart n = false) ∧
    (step op s).1.stopped = true := by
  cases op with
  | submit t i n =>
      by_cases ho : s.queueOpen
      · have he := execIfNec_eq_of_stopped
          { s with queue := s.queue ++ [⟨i, n, t, false⟩] } hs
        simp only [step, submitStep, if_pos ho, enqueueStep, he]
        exact ⟨by simp [isExecStart], hs⟩
      · simp only [step, submitStep, if_neg ho]
        exact ⟨by simp [isExecStart], hs⟩
  | transact t i n =>
      by_cases ho : s.queueOpen
      · have he := execIfNec_eq_of_stopped
          { s with queue := s.queue ++ [⟨i, n, t, true⟩] } hs
        simp only [step, transactStep, if_pos ho, enqueueStep, he]
        exact ⟨by simp [isExecStart], hs⟩
      · simp only [step, transactStep, if_neg ho]
        exact ⟨by simp [isExecStart], hs⟩
  | settle o =>
      cases hE : s.executingTransaction with
      | none => simp only [step, settleStep, hE]; exact ⟨by simp, hs⟩
      | some it =>
          have he := execIfNec_eq_of_stopped
            { s with executingTransaction := none } hs
          simp only [step, settleStep, hE, he]
          refine ⟨?_, hs⟩
          intro n hn
          simp only [List.append_nil, List.mem_append,
            List.mem_singleton] at hn
          rcases hn with h1 | h2
          · exact noStart_settleNotifs it o n h1
          · simp [h2, isExecStart]
  | sweep n =>
      cases ht : s.timerOn with
      | false => simp only [step, sweepStep, ht, Bool.false_eq_true, if_false]
                 exact ⟨by simp, hs⟩
      | true =>
          rw [show step (Op.sweep n) s = sweepStep n s from rfl,
            sweepStep_eq_on n s ht]
          refine ⟨?_, hs⟩
          intro m hm
          rcases List.mem_append.1 hm with h1 | h2
          · simp only [List.mem_singleton] at h1; simp [h1, isExecStart]
          · exact noStart_queueTimeoutNotifs _ m h2
  | abort i =>
      cases hr : removeById i s.queue with
      | none => simp only [step, abortStep, hr]; exact ⟨by simp, hs⟩
      | some p =>
          simp only [step, abortStep, hr]
          refine ⟨?_, hs⟩
          intro m hm
          simp only [List.mem_append, List.mem_singleton, List.mem_cons,
            List.not_mem_nil, or_false] at hm
          rcases hm with (h1 | h2) | h3 | h4
          · simp [h1, isExecStart]
          · exact noStart_errNotifs p.1 .aborted m h2
          · simp [h3, isExecStart]
          · simp [h4, isExecStart]
  | abortAll =>
      cases hq : s.queue with
      | nil => simp only [step, flushStep, hq, List.isEmpty_nil, if_true]
               exact ⟨by simp, hs⟩
      | cons q qs =>
          simp only [step, flushStep, hq, List.isEmpty_cons,
            Bool.false_eq_true, if_false]
          refine ⟨?_, hs⟩
          intro m hm
          simp only [List.mem_append, List.mem_singleton, List.mem_cons,
            List.not_mem_nil, or_false] at hm
          rcases hm with (h1 | h2) | h3 | h4
          · simp [h1, isExecStart]
          · exact noStart_flatMapErr (q :: qs) .aborted m h2
          · simp [h3, isExecStart]
          · simp [h4, isExecStart]
  | setStopped v =>
      cases v with
      | false => exact absurd rfl hop
      | true =>
          simp only [step, setStoppedStep, hs, if_pos]
          exact ⟨by simp, by simp [hs]⟩
  | setOpen v =>
      by_cases ho : s.queueOpen = v
      · simp only [step, setOpenStep, if_pos ho]; exact ⟨by simp, hs⟩
      · simp only [step, setOpenStep, if_neg ho]
        exact ⟨by simp [isExecStart], hs⟩
  | endProc =>
      have h1 : (setOpenStep false s).1.stopped = true ∧
          ∀ n ∈ (setOpenStep false s).2, isExecStart n = false := by
        by_cases ho : s.queueOpen = false
        · simp only [setOpenStep, if_pos ho]; exact ⟨hs, by simp⟩
        · simp only [setOpenStep, if_neg ho]
          exact ⟨hs, by simp [isExecStart]⟩
      have h2 : (flushStep (setOpenStep false s).1).1.stopped = true ∧
          ∀ n ∈ (flushStep (setOpenStep false s).1).2, isExecStart n = false := by
        cases hq : (setOpenStep false s).1.queue with
        | nil =>
            simp only [flushStep, hq, List.isEmpty_nil, if_true]
            exact ⟨h1.1, by simp⟩
        | cons q qs =>
            simp only [flushStep, hq, List.isEmpty_cons,
              Bool.false_eq_true, if_false]
            refine ⟨h1.1, ?_⟩
            intro m hm
            simp only [List.mem_append, List.mem_singleton, List.mem_cons,
              List.not_mem_nil, or_false] at hm
            rcases hm with (ha | hb) | hc | hd
            · simp [ha, isExecStart]
            · exact noStart_flatMapErr (q :: qs) .aborted m hb
            · simp [hc, isExecStart]
            · simp [hd, isExecStart]
      simp only [step, endStep]
      constructor
      · intro m hm
        rcases List.mem_append.1 hm with ha | hb
        · exact h1.2 m ha
        · exact h2.2 m hb
      · by_cases ht : (flushStep (setOpenStep false s).1).1.timerOn
        · simp only [ht, if_true]; exact h2.1
        · simp only [ht, if_false]; exact h2.1

theorem stopped_run (ops : List Op) (s : PState) (hs : s.stopped = true)
    (hops : noResume ops = true) :
    (run ops s).2.countP isExecStart = 0 ∧ (run ops s).1.stopped = true := by
  induction ops generalizing s with
  | nil => exact ⟨rfl, hs⟩
  | cons op rest ih =>
      have hall := hops
      simp only [noResume, List.all_cons, Bool.and_eq_true,
        decide_eq_true_eq] at hall
      have h1 := stopped_step_noStart op s hs hall.1
      have h2 := ih (step op s).1 h1.2 hall.2
      simp only [run]
      constructor
      · rw [List.countP_append, countStart_zero _ h1.1, h2.1]
      · exact h2.2

/-! Machinery for shutdown idempotence and timer quiescence. -/

theorem endStep_state (s : PState) :
    (endStep s).1 = { s with queue := [], queueOpen := false, timerOn := false } := by
  obtain ⟨q, e, o, st, ti, a, b⟩ := s
  cases o <;> cases ti <;> cases q <;>
    simp [endStep, setOpenStep, flushStep]

theorem execIfNec_fields (s : PState) :
    (executeTransactionIfNecessary s).1.queueOpen = s.queueOpen ∧
    (executeTransactionIfNecessary s).1.stopped = s.stopped ∧
    (executeTransactionIfNecessary s).1.timerOn = s.timerOn ∧
    (executeTransactionIfNecessary s).1.transTimeoutMS = s.transTimeoutMS ∧
    (executeTransactionIfNecessary s).1.transTimeoutPollingIntervalMS =
      s.transTimeoutPollingIntervalMS := by
  rcases execIfNec_cases s with heq | ⟨it, rest, _, _, _, heq⟩ <;>
    rw [heq] <;> exact ⟨rfl, rfl, rfl, rfl, rfl⟩

theorem sweep_timerOff (now : Int) (s : PState) (h : s.timerOn = false) :
    sweepStep now s = (s, []) := by
  simp [sweepStep, h]

theorem step_timerOff (op : Op) (s : PState) (h : s.timerOn = false) :
    (step op s).1.timerOn = false := by
  cases op with
  | submit t i n =>
      by_cases ho : s.queueOpen
      · simp only [step, submitStep, if_pos ho, enqueueStep]
        rw [(execIfNec_fields _).2.2.1]
        exact h
      · simp only [step, submitStep, if_neg ho]; exact h
  | transact t i n =>
      by_cases ho : s.queueOpen
      · simp only [step, transactStep, if_pos ho, enqueueStep]
        rw [(execIfNec_fields _).2.2.1]
        exact h
      · simp only [step, transactStep, if_neg ho]; exact h
  | settle o =>
      cases hE : s.executingTransaction with
      | none => simp only [step, settleStep, hE]; exact h
      | some it =>
          simp only [step, settleStep, hE]
          rw [(execIfNec_fields _).2.2.1]
          exact h
  | sweep n =>
      rw [show step (Op.sweep n) s = sweepStep n s from rfl,
        sweep_timerOff n s h]
      exact h
  | abort i =>
      cases hr : removeById i s.queue with
      | none => simp only [step, abortStep, hr]; exact h
      | some p => simp only [step, abortStep, hr]; exact h
  | abortAll =>
      cases hq : s.queue with
      | nil => simp only [step, flushStep, hq, List.isEmpty_nil, if_true]; exact h
      | cons x xs =>
          simp only [step, flushStep, hq, List.isEmpty_cons,
            Bool.false_eq_true, if_false]
          exact h
  | setStopped v =>
      by_cases hv : s.stopped = v
      · simp only [step, setStoppedStep, if_pos hv]; exact h
      · cases v with
        | true => simp only [step, setStoppedStep, if_neg hv, if_true]; exact h
        | false =>
            simp only [step, setStoppedStep, if_neg hv,
              Bool.false_eq_true, if_false]
            rw [(execIfNec_fields _).2.2.1]
            exact h
  | setOpen v =>
      by_cases hv : s.queueOpen = v
      · simp only [step, setOpenStep, if_pos hv]; exact h
      · simp only [step, setOpenStep, if_neg hv]; exact h
  | endProc => rw [show step Op.endProc s = endStep s from rfl, endStep_state]

/-! Machinery for the closed-intake property: draining is independent of the
`Open` flag. -/

theorem settle_open_indep (o : Outcome) (s : PState) :
    settleStep o { s with queueOpen := false } =
      ({ (settleStep o s).1 with queueOpen := false }, (settleStep o s).2) := by
  obtain ⟨q, e, op, st, ti, a, b⟩ := s
  cases e with
  | none => simp [settleStep]
  | some it =>
      simp only [settleStep]
      cases st <;> cases q <;>
        simp [executeTransactionIfNecessary, PState.Busy]

/-! Machinery for the eviction-batch ordering property. -/

def errIds (l : List Notif) : List Nat :=
  l.filterMap fun n =>
    match n with
    | .transactionError _ _ (some i) => some i
    | _ => none

def cbIds (l : List Notif) : List Nat :=
  l.filterMap fun n =>
    match n with
    | .callbackInvoked i _ _ => some i
    | _ => none

theorem errIds_append (t u : List Notif) :
    errIds (t ++ u) = errIds t ++ errIds u :=
  List.filterMap_append t u _

theorem cbIds_append (t u : List Notif) :
    cbIds (t ++ u) = cbIds t ++ cbIds u :=
  List.filterMap_append t u _

theorem errIds_flatMapErr (l : List Item) (e : Err) :
    errIds (l.flatMap fun it => errNotifs it e) = l.map (·.Id) := by
  induction l with
  | nil => simp [errIds]
  | cons it rest ih =>
      rw [List.flatMap_cons, errIds_append, ih]
      cases h : it.hasCallback <;> simp [errNotifs, h, errIds]

theorem cbIds_flatMapErr (l : List Item) (e : Err) :
    cbIds (l.flatMap fun it => errNotifs it e) =
      (l.filter (·.hasCallback)).map (·.Id) := by
  induction l with
  | nil => simp [cbIds]
  | cons it rest ih =>
      rw [List.flatMap_cons, cbIds_append, ih]
      cases h : it.hasCallback <;> simp [errNotifs, h, cbIds, List.filter_cons]

theorem errIds_queueTimeoutNotifs (l : List Item) :
    errIds (queueTimeoutNotifs l) = l.map (·.Id) := by
  cases l with
  | nil => simp [queueTimeoutNotifs, errIds]
  | cons r rs =>
      rw [queueTimeoutNotifs]
      simp only [List.isEmpty_cons, Bool.false_eq_true, if_false]
      rw [errIds_append, errIds_append, errIds_flatMapErr]
      simp [errIds]

theorem cbIds_queueTimeoutNotifs (l : List Item) :
    cbIds (queueTimeoutNotifs l) = (l.filter (·.hasCallback)).map (·.Id) := by
  cases l with
  | nil => simp [queueTimeoutNotifs, cbIds]
  | cons r rs =>
      rw [queueTimeoutNotifs]
      simp only [List.isEmpty_cons, Bool.false_eq_true, if_false]
      rw [cbIds_append, cbIds_append, cbIds_flatMapErr]
      simp [cbIds]

/-! Model of the `Options` getter (`get Options() { return _.assignIn({}, this._options); }`).
JavaScript objects live in a heap and are passed by reference; `_.assignIn({}, src)`
allocates a fresh object and copies every field of `src` into it.  A reference
is an address into the heap, `next` is the next free address. -/

structure OptionsObj where
  TransTimeoutPollingIntervalMS : Int
  TransTimeoutMS : Int
deriving DecidableEq

structure ObjHeap where
  next : Nat
  cell : Nat → OptionsObj

def readCell (h : ObjHeap) (r : Nat) : OptionsObj := h.cell r

/-- The `Options` getter: `_.assignIn({}, this._options)` allocates a fresh
object, copies the internal options object's fields into it, and returns the
fresh reference. -/
def optionsGetter (h : ObjHeap) (src : Nat) : Nat × ObjHeap :=
  (h.next,
   { next := h.next + 1
     cell := fun r => if r = h.next then h.cell src else h.cell r })

inductive OptField where
  | pollingIntervalField
  | timeoutField
deriving DecidableEq

/-- Field assignment on a heap object: what a caller mutating a returned
options value does. -/
def writeField (h : ObjHeap) (r : Nat) (f : OptField) (v : Int) : ObjHeap :=
  { next := h.next
    cell := fun q =>
      if q = r then
        match f with
        | .pollingIntervalField =>
            { h.cell r with TransTimeoutPollingIntervalMS := v }
        | .timeoutField => { h.cell r with TransTimeoutMS := v }
      else h.cell q }

/-! Claim theorems. -/

/-- C1: Serialization invariant: in every reachable state of the dispatcher at
most one transaction is executing (the executing slot is a single `Option Item`
and `executeTransactionIfNecessary` is a silent no-op whenever `Busy`), and in
every interleaving of submissions, completions, sweeps and aborts each
`executing-transaction` notification is matched by a `transaction-success` or
`transaction-error` notification before the next `executing-transaction`
notification fires (`serialOK` over the emitted trace). -/
theorem c1_serializationInvariant :
    (∀ (pollMS timeoutMS : Int) (ops : List Op),
        serialOK false (run ops (initState pollMS timeoutMS)).2 = true) ∧
    (∀ s : PState, s.Busy = true → executeTransactionIfNecessary s = (s, [])) := by
  constructor
  · intro pollMS timeoutMS ops
    exact (run_serial ops (initState pollMS timeoutMS) false
      (noOpenExec_false _)).1
  · exact execIfNec_eq_of_busy

def busyDemoState : PState :=
  { queue := [⟨2, 1, 8, true⟩]
    executingTransaction := some ⟨1, 0, 7, false⟩
    queueOpen := true
    stopped := false
    timerOn := true
    transTimeoutMS := 15000
    transTimeoutPollingIntervalMS := 5000 }

/-- C1 witness: a concrete interleaving with two executions, a sweep and an
abort satisfies `serialOK`, and a concrete busy state refuses to dispatch. -/
theorem c1_serializationInvariant_witness :
    serialOK false
        (run [Op.submit 7 1 0, Op.transact 8 2 1, Op.sweep 100,
              Op.settle (.ok 3), Op.abort 2, Op.settle (.err 4)]
          (initState 5000 15000)).2 = true ∧
    busyDemoState.Busy = true ∧
    executeTransactionIfNecessary busyDemoState = (busyDemoState, []) :=
  ⟨c1_serializationInvariant.1 5000 15000 _, by decide,
   c1_serializationInvariant.2 busyDemoState (by decide)⟩

/-- C2: FIFO invariant: for every interleaving made only of submissions and
settlements (no aborts, no evictions), the `(transaction, id)` pairs announced
by `executing-transaction` notifications followed by the pairs still queued are
exactly the submitted pairs in submission order — so the k-th
`executing-transaction` notification carries the k-th submitted transaction;
and an eviction sweep leaves the survivors exactly as the order-preserving
filter of the not-timed-out items. -/
theorem c2_fifoInvariant :
    (∀ (pollMS timeoutMS : Int) (ops : List Op),
        submitSettleOnly ops = true →
        startedPairs (run ops (initState pollMS timeoutMS)).2 ++
            queuePairs (run ops (initState pollMS timeoutMS)).1 =
          submittedPairs ops) ∧
    (∀ (now maxAge : Int) (items : List Item),
        (removeTimeoutTransactions now maxAge items).1 =
          items.filter fun it => !(isTimedOut now maxAge it)) := by
  constructor
  · intro pollMS timeoutMS ops hops
    have h := fifo_run ops (initState pollMS timeoutMS) rfl hops
    simpa [queuePairs, initState] using h
  · intro now maxAge items
    rw [removeTimeoutTransactions_eq]

/-- C2 witness: three submissions and two settlements execute in submission
order; a concrete sweep keeps survivors in order. -/
theorem c2_fifoInvariant_witness :
    submitSettleOnly [Op.submit 10 1 0, Op.transact 20 2 0, Op.submit 30 3 0,
        Op.settle (.ok 0), Op.settle (.ok 0)] = true ∧
    startedPairs (run [Op.submit 10 1 0, Op.transact 20 2 0, Op.submit 30 3 0,
          Op.settle (.ok 0), Op.settle (.ok 0)] (initState 5000 15000)).2 ++
        queuePairs (run [Op.submit 10 1 0, Op.transact 20 2 0, Op.submit 30 3 0,
          Op.settle (.ok 0), Op.settle (.ok 0)] (initState 5000 15000)).1 =
      submittedPairs [Op.submit 10 1 0, Op.transact 20 2 0, Op.submit 30 3 0,
        Op.settle (.ok 0), Op.settle (.ok 0)] :=
  ⟨by decide, c2_fifoInvariant.1 5000 15000 _ (by decide)⟩

/-- C3: Closed-intake rejection: while `Open` is false, `submit` and `transact`
reject with the structured `forbidden` error, leave the whole state (and in
particular the queue) unchanged, and additionally publish the same error as a
`transaction-error` notification; and draining (settlement plus the re-entrant
dispatch, which never reads `Open`) behaves identically whether intake is open
or closed, so items queued before closing continue to execute normally. -/
theorem c3_closedIntakeRejection :
    (∀ (s : PState) (trans id : Nat) (now : Int), s.queueOpen = false →
        submitStep trans id now s =
          (s, [.transactionError trans .forbidden none],
           .rejected .forbidden) ∧
        transactStep trans id now s =
          (s, [.transactionError trans .forbidden none],
           .rejected .forbidden)) ∧
    (∀ (o : Outcome) (s : PState),
        settleStep o { s with queueOpen := false } =
          ({ (settleStep o s).1 with queueOpen := false },
           (settleStep o s).2)) := by
  constructor
  · intro s trans id now ho
    constructor <;> simp [submitStep, transactStep, ho]
  · intro o s
    exact settle_open_indep o s

def closedDemoState : PState :=
  { queue := [⟨5, 0, 9, true⟩]
    executingTransaction := none
    queueOpen := false
    stopped := false
    timerOn := true
    transTimeoutMS := 15000
    transTimeoutPollingIntervalMS := 5000 }

/-- C3 witness: a concrete closed state rejects a submit and a transact with
`forbidden` and is left unchanged. -/
theorem c3_closedIntakeRejection_witness :
    closedDemoState.queueOpen = false ∧
    submitStep 42 7 3 closedDemoState =
      (closedDemoState, [.transactionError 42 .forbidden none],
       .rejected .forbidden) ∧
    transactStep 42 7 3 closedDemoState =
      (closedDemoState, [.transactionError 42 .forbidden none],
       .rejected .forbidden) :=
  ⟨by decide, (c3_closedIntakeRejection.1 closedDemoState 42 7 3 (by decide)).1,
   (c3_closedIntakeRejection.1 closedDemoState 42 7 3 (by decide)).2⟩

def isQTimeoutN : Notif → Bool
  | .qTimeout _ => true
  | _ => false

def isQChangeN : Notif → Bool
  | .qChange => true
  | _ => false

theorem mem_errNotifs_cases (it : Item) (e : Err) (n : Notif)
    (hn : n ∈ errNotifs it e) :
    n = .transactionError it.Transaction e (some it.Id) ∨
    n = .callbackInvoked it.Id (some e) none := by
  cases h : it.hasCallback <;> simp [errNotifs, h] at hn <;> tauto

theorem countQTimeout_flatMapErr (l : List Item) (e : Err) :
    (l.flatMap fun it => errNotifs it e).countP isQTimeoutN = 0 := by
  apply List.countP_eq_zero.2
  intro n hn
  rcases List.mem_flatMap.1 hn with ⟨it, _, hmem⟩
  rcases mem_errNotifs_cases it e n hmem with h | h <;> simp [h, isQTimeoutN]

theorem countQChange_flatMapErr (l : List Item) (e : Err) :
    (l.flatMap fun it => errNotifs it e).countP isQChangeN = 0 := by
  apply List.countP_eq_zero.2
  intro n hn
  rcases List.mem_flatMap.1 hn with ⟨it, _, hmem⟩
  rcases mem_errNotifs_cases it e n hmem with h | h <;> simp [h, isQChangeN]

/-- C4: Eviction sweep contract: a sweep with a pending timer removes exactly
the queued items with `now - EnqueueTime > TransTimeoutMS` — all of them in one
sweep — keeping the survivors in their original relative order; all evicted
items travel in a single `transactions-timeout` notification followed by a
single `change` notification (the full trace shape makes the ordering and the
per-item error delivery explicit, and the `transactions-timeout` /
queue-`change` counts are exactly one each); when nothing qualifies the state
is unchanged and no queue notification is emitted (only the `polling`
heartbeat). -/
theorem c4_evictionSweepContract :
    ∀ (now : Int) (s : PState), s.timerOn = true →
      ((sweepStep now s).1.queue =
        s.queue.filter fun it => !(isTimedOut now s.transTimeoutMS it)) ∧
      ((removeTimeoutTransactions now s.transTimeoutMS s.queue).2.reverse =
        s.queue.filter (isTimedOut now s.transTimeoutMS)) ∧
      (∀ r rs,
        (removeTimeoutTransactions now s.transTimeoutMS s.queue).2 = r :: rs →
        (sweepStep now s).2 =
          [Notif.polling] ++
            ([Notif.qTimeout (r :: rs)] ++
              ((r :: rs).flatMap fun it => errNotifs it .timeout) ++
              [Notif.qChange, Notif.change]) ∧
        (sweepStep now s).2.countP isQTimeoutN = 1 ∧
        (sweepStep now s).2.countP isQChangeN = 1) ∧
      (s.queue.filter (isTimedOut now s.transTimeoutMS) = [] →
        (sweepStep now s).1 = s ∧ (sweepStep now s).2 = [Notif.polling]) := by
  intro now s ht
  have hrem := removeTimeoutTransactions_eq now s.transTimeoutMS s.queue
  refine ⟨?_, ?_, ?_, ?_⟩
  · rw [sweepStep_eq_on now s ht]
    simp [hrem]
  · rw [hrem]
    simp
  · intro r rs hcons
    have hshape : (sweepStep now s).2 =
        [Notif.polling] ++
          ([Notif.qTimeout (r :: rs)] ++
            ((r :: rs).flatMap fun it => errNotifs it .timeout) ++
            [Notif.qChange, Notif.change]) := by
      rw [sweepStep_eq_on now s ht, hcons]
      simp [queueTimeoutNotifs]
    refine ⟨hshape, ?_, ?_⟩
    · rw [hshape, List.countP_append, List.countP_append, List.countP_append,
        countQTimeout_flatMapErr]
      simp [List.countP_cons, List.countP_nil, isQTimeoutN]
    · rw [hshape, List.countP_append, List.countP_append, List.countP_append,
        countQChange_flatMapErr]
      simp [List.countP_cons, List.countP_nil, isQChangeN]
  · intro hnone
    have h2 : (removeTimeoutTransactions now s.transTimeoutMS s.queue).2 = [] := by
      rw [hrem]
      simp [hnone]
    have h1 : (removeTimeoutTransactions now s.transTimeoutMS s.queue).1 = s.queue := by
      rw [hrem]
      have hall := List.filter_eq_nil_iff.1 hnone
      simp only
      rw [List.filter_eq_self]
      intro a ha
      simp [hall a ha]
    rw [sweepStep_eq_on now s ht, h1, h2]
    constructor
    · rfl
    · simp [queueTimeoutNotifs]

def sweepDemoState : PState :=
  { queue := [⟨1, 0, 11, true⟩, ⟨2, 20, 12, true⟩]
    executingTransaction := none
    queueOpen := true
    stopped := false
    timerOn := true
    transTimeoutMS := 5
    transTimeoutPollingIntervalMS := 7 }

/-- C4 witness: a concrete sweep at `now = 10` with timeout 5 evicts exactly
the item enqueued at `t = 0` and keeps the item enqueued at `t = 20`. -/
theorem c4_evictionSweepContract_witness :
    sweepDemoState.timerOn = true ∧
    (sweepStep 10 sweepDemoState).1.queue =
      sweepDemoState.queue.filter
        (fun it => !(isTimedOut 10 sweepDemoState.transTimeoutMS it)) ∧
    (removeTimeoutTransactions 10 sweepDemoState.transTimeoutMS
        sweepDemoState.queue).2.reverse =
      sweepDemoState.queue.filter (isTimedOut 10 sweepDemoState.transTimeoutMS) ∧
    (sweepStep 10 sweepDemoState).2.countP isQTimeoutN = 1 :=
  ⟨by decide, (c4_evictionSweepContract 10 sweepDemoState (by decide)).1,
   (c4_evictionSweepContract 10 sweepDemoState (by decide)).2.1,
   ((c4_evictionSweepContract 10 sweepDemoState (by decide)).2.2.1
      ⟨1, 0, 11, true⟩ [] (by decide)).2.1⟩

/-- C5 counterexample: with items enqueued at t=0, t=5, t=12,
`itemTimeoutMS = 10` and a sweep at t=13, the eviction predicate
`now - EnqueueTime > maxAge` gives age 8 for the t=5 item, so the code evicts
only the t=0 item — the claim that the t=5 item is also evicted is false. -/
theorem c5_evictionExample_counterexample :
    (removeTimeoutTransactions 13 10
        [⟨1, 0, 101, true⟩, ⟨2, 5, 102, true⟩, ⟨3, 12, 103, true⟩]).2 =
      [⟨1, 0, 101, true⟩] ∧
    (⟨2, 5, 102, true⟩ : Item) ∉
      (removeTimeoutTransactions 13 10
        [⟨1, 0, 101, true⟩, ⟨2, 5, 102, true⟩, ⟨3, 12, 103, true⟩]).2 := by
  decide

/-- C5 (amended): given items enqueued at t=0, t=5 and t=12 with
`itemTimeoutMS = 10` and a sweep running at t=13, exactly the item enqueued at
t=0 is evicted, failing with a `timeout` error delivered through its completion
callback and a `transaction-error` notification; the items enqueued at t=5 and
t=12 remain queued, and the eviction produces exactly one batched
`transactions-timeout` notification followed by one `change` notification. -/
theorem c5_evictionExample_amended :
    sweepStep 13
        { queue := [⟨1, 0, 101, true⟩, ⟨2, 5, 102, true⟩, ⟨3, 12, 103, true⟩]
          executingTransaction := none
          queueOpen := true
          stopped := false
          timerOn := true
          transTimeoutMS := 10
          transTimeoutPollingIntervalMS := 5 } =
      ({ queue := [⟨2, 5, 102, true⟩, ⟨3, 12, 103, true⟩]
         executingTransaction := none
         queueOpen := true
         stopped := false
         timerOn := true
         transTimeoutMS := 10
         transTimeoutPollingIntervalMS := 5 },
       [.polling, .qTimeout [⟨1, 0, 101, true⟩],
        .transactionError 101 .timeout (some 1),
        .callbackInvoked 1 (some .timeout) none,
        .qChange, .change]) := by
  decide

/-- C6: Abort semantics: `abort(id)` on a still-queued id returns `true`,
removes exactly the first item carrying that id while leaving every other
state component untouched, and fails it with the `aborted` error through a
`transaction-error` notification and (when installed) its completion callback;
`abort(id)` on an id not present in the queue (unknown, already completed, or
currently executing) returns `false` and changes nothing. -/
theorem c6_abortSemantics :
    (∀ (s : PState) (id : Nat) (pre : List Item) (it : Item) (post : List Item),
        s.queue = pre ++ it :: post → it.Id = id → (∀ x ∈ pre, x.Id ≠ id) →
        abortStep id s =
          ({ s with queue := pre ++ post },
           [.qRemoved [it]] ++ errNotifs it .aborted ++ [.qChange, .change],
           true)) ∧
    (∀ (s : PState) (id : Nat), (∀ x ∈ s.queue, x.Id ≠ id) →
        abortStep id s = (s, [], false)) := by
  constructor
  · intro s id pre it post hq hid hpre
    have h := removeById_of_decomp id pre it post hid hpre
    rw [← hq] at h
    simp [abortStep, h]
  · intro s id h
    simp [abortStep, removeById_eq_none id s.queue h]

def abortDemoState : PState :=
  { queue := [⟨1, 0, 11, false⟩, ⟨2, 1, 12, true⟩, ⟨3, 2, 13, true⟩]
    executingTransaction := some ⟨9, 0, 99, true⟩
    queueOpen := true
    stopped := false
    timerOn := true
    transTimeoutMS := 15000
    transTimeoutPollingIntervalMS := 5000 }

/-- C6 witness: aborting the queued id 2 succeeds and removes exactly that
item; aborting the executing id 9 (not queued) and the unknown id 4 return
`false` with no effect. -/
theorem c6_abortSemantics_witness :
    abortStep 2 abortDemoState =
      ({ abortDemoState with queue := [⟨1, 0, 11, false⟩, ⟨3, 2, 13, true⟩] },
       [.qRemoved [⟨2, 1, 12, true⟩]] ++ errNotifs ⟨2, 1, 12, true⟩ .aborted ++
         [.qChange, .change],
       true) ∧
    abortStep 9 abortDemoState = (abortDemoState, [], false) ∧
    abortStep 4 abortDemoState = (abortDemoState, [], false) :=
  ⟨c6_abortSemantics.1 abortDemoState 2 [⟨1, 0, 11, false⟩] ⟨2, 1, 12, true⟩
      [⟨3, 2, 13, true⟩] (by decide) (by decide) (by decide),
   c6_abortSemantics.2 abortDemoState 9 (by decide),
   c6_abortSemantics.2 abortDemoState 4 (by decide)⟩

/-- C7: Stopped pause and resume: while `Stopped` is true no operation that is
not the stopped-to-running transition ever emits an `executing-transaction`
notification (and `Stopped` stays true), even with a non-empty queue and an
idle dispatcher; and flipping `Stopped` to false on an idle dispatcher with a
non-empty queue immediately dispatches: the head item moves into the executing
slot, leaves the queue, and its `executing-transaction` notification is
emitted during the very same `Stopped` setter call. -/
theorem c7_stoppedPauseResume :
    (∀ (ops : List Op) (s : PState), s.stopped = true → noResume ops = true →
        (run ops s).2.countP isExecStart = 0 ∧ (run ops s).1.stopped = true) ∧
    (∀ (s : PState) (it : Item) (rest : List Item),
        s.stopped = true → s.executingTransaction = none →
        s.queue = it :: rest →
        (step (.setStopped false) s).1.executingTransaction = some it ∧
        (step (.setStopped false) s).1.queue = rest ∧
        Notif.executingTransaction it.Transaction it.Id ∈
          (step (.setStopped false) s).2) := by
  constructor
  · intro ops s hs hops
    exact stopped_run ops s hs hops
  · intro s it rest hs hE hq
    have hns : ¬(s.stopped = false) := by simp [hs]
    have hd : executeTransactionIfNecessary { s with stopped := false } =
        ({ s with
            stopped := false
            queue := rest
            executingTransaction := some it },
         [.qChange, .change, .change,
          .executingTransaction it.Transaction it.Id]) := by
      simp [executeTransactionIfNecessary, PState.Busy, hE, hq]
    simp only [step, setStoppedStep, if_neg hns, Bool.false_eq_true,
      if_false, hd]
    exact ⟨by trivial, by trivial, by simp⟩

def stoppedDemoState : PState :=
  { queue := [⟨1, 0, 21, true⟩, ⟨2, 1, 22, false⟩]
    executingTransaction := none
    queueOpen := true
    stopped := true
    timerOn := true
    transTimeoutMS := 15000
    transTimeoutPollingIntervalMS := 5000 }

/-- C7 witness: a stopped idle dispatcher with two queued items dispatches
nothing across a submit, a sweep and an abort, and the head item starts the
moment `Stopped` is set to false. -/
theorem c7_stoppedPauseResume_witness :
    stoppedDemoState.stopped = true ∧
    noResume [Op.submit 5 9 2, Op.sweep 50, Op.setStopped true,
      Op.abort 2] = true ∧
    (run [Op.submit 5 9 2, Op.sweep 50, Op.setStopped true, Op.abort 2]
        stoppedDemoState).2.countP isExecStart = 0 ∧
    (step (.setStopped false) stoppedDemoState).1.executingTransaction =
      some ⟨1, 0, 21, true⟩ ∧
    Notif.executingTransaction 21 1 ∈
      (step (.setStopped false) stoppedDemoState).2 :=
  ⟨by decide, by decide,
   (c7_stoppedPauseResume.1 [Op.submit 5 9 2, Op.sweep 50,
      Op.setStopped true, Op.abort 2] stoppedDemoState (by decide)
      (by decide)).1,
   (c7_stoppedPauseResume.2 stoppedDemoState ⟨1, 0, 21, true⟩
      [⟨2, 1, 22, false⟩] (by decide) (by decide) (by decide)).1,
   (c7_stoppedPauseResume.2 stoppedDemoState ⟨1, 0, 21, true⟩
      [⟨2, 1, 22, false⟩] (by decide) (by decide) (by decide)).2.2⟩

/-- C8: Shutdown idempotence: calling `end` twice yields exactly the state of
calling it once; after `end` the state has `Open = false`, an empty queue and
no pending sweep timer; a cleared timer makes every sweep a silent no-op; and
no operation ever re-arms a cleared timer, so after `end` the sweep never
fires again. -/
theorem c8_shutdownIdempotence :
    (∀ s : PState, (endStep (endStep s).1).1 = (endStep s).1) ∧
    (∀ s : PState, (endStep s).1.queueOpen = false ∧
        (endStep s).1.queue = [] ∧ (endStep s).1.timerOn = false) ∧
    (∀ (now : Int) (s : PState), s.timerOn = false →
        sweepStep now s = (s, [])) ∧
    (∀ (op : Op) (s : PState), s.timerOn = false →
        (step op s).1.timerOn = false) := by
  refine ⟨?_, ?_, sweep_timerOff, step_timerOff⟩
  · intro s
    rw [endStep_state s, endStep_state]
  · intro s
    rw [endStep_state s]
    exact ⟨rfl, rfl, rfl⟩

def endDemoState : PState :=
  { queue := [⟨1, 0, 31, true⟩]
    executingTransaction := some ⟨2, 1, 32, false⟩
    queueOpen := true
    stopped := false
    timerOn := true
    transTimeoutMS := 15000
    transTimeoutPollingIntervalMS := 5000 }

def deadDemoState : PState :=
  { queue := [⟨3, 2, 33, true⟩]
    executingTransaction := none
    queueOpen := false
    stopped := false
    timerOn := false
    transTimeoutMS := 15000
    transTimeoutPollingIntervalMS := 5000 }

/-- C8 witness: ending a concrete busy dispatcher twice equals ending it once,
and with the timer cleared a sweep does nothing and stays cleared across a
further operation. -/
theorem c8_shutdownIdempotence_witness :
    (endStep (endStep endDemoState).1).1 = (endStep endDemoState).1 ∧
    (endStep endDemoState).1.timerOn = false ∧
    deadDemoState.timerOn = false ∧
    sweepStep 77 deadDemoState = (deadDemoState, []) ∧
    (step (Op.submit 1 2 3) deadDemoState).1.timerOn = false :=
  ⟨c8_shutdownIdempotence.1 endDemoState,
   (c8_shutdownIdempotence.2.1 endDemoState).2.2,
   by decide,
   c8_shutdownIdempotence.2.2.1 77 deadDemoState (by decide),
   c8_shutdownIdempotence.2.2.2 (Op.submit 1 2 3) deadDemoState (by decide)⟩

/-- C9: Options snapshot isolation: the `Options` getter allocates a fresh
object (a reference different from the internal one) whose contents equal the
internal options; mutating any field of the returned object leaves the
internal options unchanged; and two successive reads return distinct objects
with equal contents. -/
theorem c9_optionsSnapshotIsolation :
    ∀ (h : ObjHeap) (src : Nat), src < h.next →
      (optionsGetter h src).1 ≠ src ∧
      readCell (optionsGetter h src).2 (optionsGetter h src).1 =
        readCell h src ∧
      readCell (optionsGetter h src).2 src = readCell h src ∧
      (∀ (f : OptField) (v : Int),
          readCell (writeField (optionsGetter h src).2
            (optionsGetter h src).1 f v) src = readCell h src) ∧
      (optionsGetter (optionsGetter h src).2 src).1 ≠
        (optionsGetter h src).1 ∧
      readCell (optionsGetter (optionsGetter h src).2 src).2
          (optionsGetter (optionsGetter h src).2 src).1 =
        readCell (optionsGetter h src).2 (optionsGetter h src).1 := by
  intro h src hsrc
  have hne : src ≠ h.next := Nat.ne_of_lt hsrc
  refine ⟨?_, ?_, ?_, ?_, ?_, ?_⟩
  · intro hc
    rw [show (optionsGetter h src).1 = h.next from rfl] at hc
    exact hne hc.symm
  · simp [optionsGetter, readCell]
  · simp [optionsGetter, readCell, hne]
  · intro f v
    simp [optionsGetter, readCell, writeField, hne]
  · intro hc
    rw [show (optionsGetter (optionsGetter h src).2 src).1 = h.next + 1
      from rfl, show (optionsGetter h src).1 = h.next from rfl] at hc
    omega
  · simp [optionsGetter, readCell, hne]

def optsDemoHeap : ObjHeap :=
  { next := 1, cell := fun _ => ⟨5000, 15000⟩ }

/-- C9 witness: on a concrete heap holding the default options at address 0,
the getter returns a fresh address whose contents match, writing the timeout
field of the copy leaves the original untouched, and two reads differ. -/
theorem c9_optionsSnapshotIsolation_witness :
    0 < optsDemoHeap.next ∧
    (optionsGetter optsDemoHeap 0).1 ≠ 0 ∧
    readCell (optionsGetter optsDemoHeap 0).2 (optionsGetter optsDemoHeap 0).1 =
      readCell optsDemoHeap 0 ∧
    readCell (writeField (optionsGetter optsDemoHeap 0).2
      (optionsGetter optsDemoHeap 0).1 .timeoutField 1) 0 =
      readCell optsDemoHeap 0 ∧
    (optionsGetter (optionsGetter optsDemoHeap 0).2 0).1 ≠
      (optionsGetter optsDemoHeap 0).1 :=
  ⟨by decide,
   (c9_optionsSnapshotIsolation optsDemoHeap 0 (by decide)).1,
   (c9_optionsSnapshotIsolation optsDemoHeap 0 (by decide)).2.1,
   (c9_optionsSnapshotIsolation optsDemoHeap 0 (by decide)).2.2.2.1
     .timeoutField 1,
   (c9_optionsSnapshotIsolation optsDemoHeap 0 (by decide)).2.2.2.2.1⟩

/-- C10: Eviction batch order is reversed: the backwards scan makes the batch
carried by the single `transactions-timeout` notification list the evicted
items in reverse enqueue order (most recently enqueued expired item first),
and consequently the `transaction-error` notifications and the completion
callbacks of a sweep fire in that reverse FIFO order. -/
theorem c10_evictionReverseOrder :
    (∀ (now maxAge : Int) (items : List Item),
        (removeTimeoutTransactions now maxAge items).2 =
          (items.filter (isTimedOut now maxAge)).reverse) ∧
    (∀ (now : Int) (s : PState), s.timerOn = true →
        errIds (sweepStep now s).2 =
          ((s.queue.filter (isTimedOut now s.transTimeoutMS)).reverse).map
            (·.Id) ∧
        cbIds (sweepStep now s).2 =
          (((s.queue.filter (isTimedOut now s.transTimeoutMS)).reverse).filter
              (·.hasCallback)).map (·.Id)) := by
  constructor
  · intro now maxAge items
    rw [removeTimeoutTransactions_eq]
  · intro now s ht
    rw [sweepStep_eq_on now s ht]
    constructor
    · show errIds ([Notif.polling] ++
        queueTimeoutNotifs (removeTimeoutTransactions now s.transTimeoutMS s.queue).2) = _
      rw [errIds_append, errIds_queueTimeoutNotifs,
        removeTimeoutTransactions_eq]
      simp [errIds]
    · show cbIds ([Notif.polling] ++
        queueTimeoutNotifs (removeTimeoutTransactions now s.transTimeoutMS s.queue).2) = _
      rw [cbIds_append, cbIds_queueTimeoutNotifs,
        removeTimeoutTransactions_eq]
      simp [cbIds]

def reverseDemoState : PState :=
  { queue := [⟨1, 0, 11, true⟩, ⟨2, 1, 12, false⟩, ⟨3, 100, 13, true⟩]
    executingTransaction := none
    queueOpen := true
    stopped := false
    timerOn := true
    transTimeoutMS := 10
    transTimeoutPollingIntervalMS := 5 }

/-- C10 witness: a sweep at `now = 50` evicts the items enqueued at t=0 and
t=1; the error notifications carry ids in reverse enqueue order. -/
theorem c10_evictionReverseOrder_witness :
    reverseDemoState.timerOn = true ∧
    errIds (sweepStep 50 reverseDemoState).2 =
      ((reverseDemoState.queue.filter
          (isTimedOut 50 reverseDemoState.transTimeoutMS)).reverse).map
        (·.Id) ∧
    cbIds (sweepStep 50 reverseDemoState).2 =
      (((reverseDemoState.queue.filter
          (isTimedOut 50 reverseDemoState.transTimeoutMS)).reverse).filter
          (·.hasCallback)).map (·.Id) :=
  ⟨by decide,
   (c10_evictionReverseOrder.2 50 reverseDemoState (by decide)).1,
   (c10_evictionReverseOrder.2 50 reverseDemoState (by decide)).2⟩

end FifoProc
